import Mathlib

/-!
Shallow embedding of the Room & Session Coordinator of
`src/webrtc.gateway.ts` (class `WebRtcGateway`).

JS `Map<string, T>` is modelled as an association list with `mget`,
`mset`, `mdel`; JS `Set<string>` (whose iteration order is insertion
order, and whose `values().next().value` is the first inserted element)
is modelled as a duplicate-free `List String` with `sadd` and `sdel`.
`socket.io` rooms (`client.join` / `client.leave` / `client.to(room)`)
are modelled by the `adapterRooms` field; the connected-socket registry
(`server.sockets.sockets`) by the `connected` field.  Each handler
returns the successor state together with the list of emitted
`(targetSocketId, message)` pairs.
-/

namespace MeetingApp

/-- Lookup in a JS `Map` modelled as an association list. -/
def mget {α : Type} : List (String × α) → String → Option α
  | [], _ => none
  | (k', v) :: rest, k => if k' = k then some v else mget rest k

/-- Deletion from a JS `Map` modelled as an association list. -/
def mdel {α : Type} : List (String × α) → String → List (String × α)
  | [], _ => []
  | (k', v) :: rest, k => if k' = k then mdel rest k else (k', v) :: mdel rest k

/-- Insert-or-replace in a JS `Map` modelled as an association list. -/
def mset {α : Type} (m : List (String × α)) (k : String) (v : α) : List (String × α) :=
  (k, v) :: mdel m k

/-- JS `Set.add`: appends at the end when absent (insertion order). -/
def sadd (l : List String) (x : String) : List String :=
  if x ∈ l then l else l ++ [x]

/-- JS `Set.delete`. -/
def sdel : List String → String → List String
  | [], _ => []
  | y :: rest, x => if y = x then sdel rest x else y :: sdel rest x

structure UserInfo where
  roomId : String
  userName : String
  joinedAt : Nat
deriving Repr, DecidableEq

/-- The mutable fields of `WebRtcGateway`, plus the transport-owned
socket.io room membership (`adapterRooms`) and connected-socket set
(`connected`), and a generation counter `nextTimer` naming cleanup
timer handles. -/
structure GW where
  userInfo : List (String × UserInfo)
  roomHosts : List (String × String)
  roomParticipants : List (String × List String)
  cleanupTimers : List (String × Nat)
  nextTimer : Nat
  connectionAttempts : List (String × List Nat)
  adapterRooms : List (String × List String)
  connected : List String
deriving Repr, DecidableEq

/-- Messages emitted by the gateway handlers. -/
inductive Msg where
  | waitingForApproval : Msg
  | joinRequest (userId userName : String) : Msg
  | existingUsers (users : List (String × String)) : Msg
  | userJoined (userId userName : String) : Msg
  | joinApproved : Msg
  | joinRejected : Msg
  | userLeft (userId : String) (userName : Option String) : Msg
  | hostAssigned (roomId : String) : Msg
deriving Repr, DecidableEq

/-- The member set of a room in the `roomParticipants` cache (empty when
the room has no entry). -/
def membersOf (st : GW) (roomId : String) : List String :=
  (mget st.roomParticipants roomId).getD []

/-- The socket.io adapter room (the target set of `client.to(roomId)`). -/
def adapterOf (st : GW) (roomId : String) : List String :=
  (mget st.adapterRooms roomId).getD []

/-- Transport effect of `client.join(roomId)`. -/
def clientJoin (st : GW) (clientId roomId : String) : GW :=
  { st with adapterRooms := mset st.adapterRooms roomId (sadd (adapterOf st roomId) clientId) }

/-- Transport effect of `client.leave(roomId)`. -/
def clientLeave (st : GW) (clientId roomId : String) : GW :=
  { st with adapterRooms := mset st.adapterRooms roomId (sdel (adapterOf st roomId) clientId) }

/-- The `existingUsers` list built in `joinRoom` (gateway lines 154-165):
every cached participant other than the client that has a `userInfo`
entry, in participant-set order. -/
def existingUsersIn (st : GW) (clientId roomId : String) : List (String × String) :=
  (membersOf st roomId).filterMap (fun socketId =>
    match mget st.userInfo socketId with
    | some u => if socketId = clientId then none else some (socketId, u.userName)
    | none => none)

/-- Private method `joinRoom` (gateway lines 151-186). -/
def joinRoom (st : GW) (clientId roomId userName : String) : GW × List (String × Msg) :=
  let existingUsers := existingUsersIn st clientId roomId
  let participants1 := sadd (membersOf st roomId) clientId
  let st1 := clientJoin st clientId roomId
  let st2 := { st1 with roomParticipants := mset st1.roomParticipants roomId participants1 }
  let batch : List (String × Msg) :=
    if existingUsers = [] then [] else [(clientId, Msg.existingUsers existingUsers)]
  let others := (adapterOf st2 roomId).filter (fun t => decide (t ≠ clientId))
  (st2, batch ++ others.map (fun t => (t, Msg.userJoined clientId userName)))

/-- Body of `handleJoin` past the duplicate-join guard (gateway lines 107-148). -/
def handleJoinFresh (st : GW) (clientId roomId userName : String) (now : Nat) :
    GW × List (String × Msg) :=
  let st1 := { st with userInfo := mset st.userInfo clientId ⟨roomId, userName, now⟩ }
  if (membersOf st1 roomId).length = 0 then
    let st2 := { st1 with roomHosts := mset st1.roomHosts roomId clientId }
    joinRoom st2 clientId roomId userName
  else
    let targetHostId :=
      match mget st1.roomHosts roomId with
      | some h => some h
      | none => (membersOf st1 roomId).head?
    match targetHostId with
    | some th =>
      (st1, [(clientId, Msg.waitingForApproval), (th, Msg.joinRequest clientId userName)])
    | none => joinRoom st1 clientId roomId userName

/-- Handler for `join-room` (gateway lines 93-149). -/
def handleJoin (st : GW) (clientId roomId userName : String) (now : Nat) :
    GW × List (String × Msg) :=
  match mget st.userInfo clientId with
  | some existingUser =>
    if existingUser.roomId = roomId then (st, [])
    else handleJoinFresh st clientId roomId userName now
  | none => handleJoinFresh st clientId roomId userName now

/-- Handler for `admit-user` (gateway lines 188-214). -/
def handleAdmit (st : GW) (clientId userId roomId : String) : GW × List (String × Msg) :=
  if mget st.roomHosts roomId = some clientId then
    if userId ∈ st.connected then
      match mget st.userInfo userId with
      | some u =>
        let r := joinRoom st userId roomId u.userName
        (r.1, r.2 ++ [(userId, Msg.joinApproved)])
      | none => (st, [])
    else (st, [])
  else (st, [])

/-- Handler for `reject-user` (gateway lines 216-237). -/
def handleReject (st : GW) (clientId userId roomId : String) : GW × List (String × Msg) :=
  if mget st.roomHosts roomId = some clientId then
    if userId ∈ st.connected then
      ({ st with userInfo := mdel st.userInfo userId }, [(userId, Msg.joinRejected)])
    else (st, [])
  else (st, [])

/-- Private method `scheduleRoomCleanup` (gateway lines 371-390): the
pending timer handle for the room, if any, is replaced by a fresh one
(`clearTimeout` of the old handle followed by `setTimeout`). -/
def scheduleRoomCleanup (st : GW) (roomId : String) : GW :=
  { st with cleanupTimers := mset st.cleanupTimers roomId st.nextTimer,
            nextTimer := st.nextTimer + 1 }

/-- Firing of the timer callback armed by `scheduleRoomCleanup`
(gateway lines 379-387). -/
def fireCleanup (st : GW) (roomId : String) : GW :=
  if (membersOf st roomId).length = 0 then
    { st with roomParticipants := mdel st.roomParticipants roomId,
              roomHosts := mdel st.roomHosts roomId,
              cleanupTimers := mdel st.cleanupTimers roomId }
  else st

/-- Participant-cache update at the start of `handleUserLeave`
(gateway lines 327-336). -/
def removeParticipant (st : GW) (clientId roomId : String) : GW :=
  match mget st.roomParticipants roomId with
  | some ps =>
    if (sdel ps clientId).length = 0 then
      { st with roomParticipants := mdel st.roomParticipants roomId }
    else
      { st with roomParticipants := mset st.roomParticipants roomId (sdel ps clientId) }
  | none => st

/-- Host reassignment step of `handleUserLeave` (gateway lines 349-364);
`remaining` is the participant set captured after the delete, `none`
when the room had no cached participant set. -/
def reassignHost (st : GW) (clientId roomId : String) (remaining : Option (List String)) :
    GW × List (String × Msg) :=
  if mget st.roomHosts roomId = some clientId then
    match remaining with
    | some (h :: _) =>
      ({ st with roomHosts := mset st.roomHosts roomId h }, [(h, Msg.hostAssigned roomId)])
    | some [] => ({ st with roomHosts := mdel st.roomHosts roomId }, [])
    | none => ({ st with roomHosts := mdel st.roomHosts roomId }, [])
  else (st, [])

/-- Private method `handleUserLeave` (gateway lines 322-368). -/
def handleUserLeave (st : GW) (clientId roomId : String) : GW × List (String × Msg) :=
  let userInfoData := mget st.userInfo clientId
  let remaining := (mget st.roomParticipants roomId).map (fun ps => sdel ps clientId)
  let st1 := removeParticipant st clientId roomId
  let st2 := clientLeave st1 clientId roomId
  let leftMsgs := ((adapterOf st2 roomId).filter (fun t => decide (t ≠ clientId))).map
    (fun t => (t, Msg.userLeft clientId (userInfoData.map UserInfo.userName)))
  let st3 := { st2 with userInfo := mdel st2.userInfo clientId }
  let hr := reassignHost st3 clientId roomId remaining
  (scheduleRoomCleanup hr.1 roomId, leftMsgs ++ hr.2)

/-- Handler for `leave-room` (gateway lines 278-284). -/
def handleLeave (st : GW) (clientId roomId : String) : GW × List (String × Msg) :=
  handleUserLeave st clientId roomId

/-- Private method `cleanupConnectionTracking` (gateway lines 393-405). -/
def cleanupConnectionTracking (st : GW) (now : Nat) : GW :=
  { st with connectionAttempts := st.connectionAttempts.filterMap (fun e =>
      let recent := e.2.filter (fun time => decide (now - 3600000 < time))
      if recent.length = 0 then none else some (e.1, recent)) }

/-- Transport effect of a socket disconnect: the socket leaves every
adapter room and the connected-socket registry before the gateway's
`handleDisconnect` runs. -/
def disconnectTransport (st : GW) (clientId : String) : GW :=
  { st with connected := sdel st.connected clientId,
            adapterRooms := st.adapterRooms.map (fun e => (e.1, sdel e.2 clientId)) }

/-- Gateway method `handleDisconnect` (gateway lines 312-320). -/
def handleDisconnect (st : GW) (clientId : String) (now : Nat) : GW × List (String × Msg) :=
  let r :=
    match mget st.userInfo clientId with
    | some u => handleUserLeave st clientId u.roomId
    | none => (st, [])
  (cleanupConnectionTracking r.1 now, r.2)

/-- One rate-limiter step of `handleConnection` (gateway lines 77-88) on
the stored attempt list of one origin: the decision (`true` = allowed)
and the resulting stored list. -/
def rateStep (attempts : List Nat) (now : Nat) : Bool × List Nat :=
  let recentAttempts := attempts.filter (fun time => decide (now - time < 60000))
  if 50 < recentAttempts.length then (false, attempts)
  else (true, recentAttempts ++ [now])

/-- Gateway method `handleConnection` (gateway lines 73-91); the Bool is
`false` exactly when the connection is rate-limited and dropped. -/
def handleConnection (st : GW) (ip : String) (now : Nat) : GW × Bool :=
  let attempts := (mget st.connectionAttempts ip).getD []
  let recentAttempts := attempts.filter (fun time => decide (now - time < 60000))
  if 50 < recentAttempts.length then (st, false)
  else
    ({ st with connectionAttempts := mset st.connectionAttempts ip (recentAttempts ++ [now]) },
      true)

/-- A sequence of connection attempts from one origin, returning the
final state and the per-attempt decisions in order. -/
def runConnections (st : GW) (ip : String) : List Nat → GW × List Bool
  | [] => (st, [])
  | t :: rest =>
    let r := handleConnection st ip t
    let rr := runConnections r.1 ip rest
    (rr.1, r.2 :: rr.2)

/-- Decisions of `rateStep` iterated over a list of attempt times,
starting from the stored list `acc`. -/
def rateResults : List Nat → List Nat → List Bool
  | [], _ => []
  | t :: rest, acc => (rateStep acc t).1 :: rateResults rest (rateStep acc t).2

/-- The empty gateway state (all maps empty, as at class construction). -/
def st0 : GW := ⟨[], [], [], [], 0, [], [], []⟩

/-! Concrete session, room and origin identifiers used in scenarios. -/

def sA : String := "A"

def sB : String := "B"

def rR : String := "R"

def rS : String := "S"

def rR2 : String := "R2"

def nAlice : String := "Alice"

def nBob : String := "Bob"

def ipA : String := "ip"

/-- State in which session `A` issued `join-room` for room `R` and then,
without leaving, `join-room` for room `R2`. -/
def doubleJoinState : GW :=
  (handleJoin (handleJoin st0 sA rR nAlice 0).1 sA rR2 nAlice 1).1

/-- Initial state for the round-trip scenario: sessions `A` and `B`
connected, nothing joined. -/
def stC3 : GW := { st0 with connected := [sA, sB] }

/-- Step 1: `A` joins the empty room `R`. -/
def c3a : GW × List (String × Msg) := handleJoin stC3 sA rR nAlice 0

/-- Step 2: `B` asks to join the occupied room `R`. -/
def c3b : GW × List (String × Msg) := handleJoin c3a.1 sB rR nBob 1

/-- Step 3: host `A` admits `B` into room `R`. -/
def c3c : GW × List (String × Msg) := handleAdmit c3b.1 sA sB rR

/-- The state reached inside `handleUserLeave` after the participant
cache update, `client.leave(roomId)` and the `userInfo` deletion. -/
def stAfterLeave (st : GW) (clientId roomId : String) : GW :=
  let st1 := removeParticipant st clientId roomId
  let st2 := clientLeave st1 clientId roomId
  { st2 with userInfo := mdel st2.userInfo clientId }

/-- The `user-left` notifications broadcast by `handleUserLeave`. -/
def leftNotices (st : GW) (clientId roomId : String) : List (String × Msg) :=
  ((adapterOf (clientLeave (removeParticipant st clientId roomId) clientId roomId) roomId).filter
      (fun t => decide (t ≠ clientId))).map
    (fun t => (t, Msg.userLeft clientId ((mget st.userInfo clientId).map UserInfo.userName)))

/-- The inbound operations the C1 claim quantifies over, plus socket
connection and the firing of an armed cleanup timer. -/
inductive Op where
  | connect (clientId : String) : Op
  | join (clientId roomId userName : String) (now : Nat) : Op
  | admitUser (clientId userId roomId : String) : Op
  | reject (clientId userId roomId : String) : Op
  | leave (clientId roomId : String) : Op
  | disconnect (clientId : String) (now : Nat) : Op
  | fire (roomId : String) : Op

/-- The session an operation may add to a room's member set (the joining
client for `join-room`, the admitted user for `admit-user`). -/
def opAdds : Op → Option (String × String)
  | .join c r _ _ => some (c, r)
  | .admitUser _ u r => some (u, r)
  | _ => none

/-- State transition of one operation. -/
def applyOp (st : GW) : Op → GW
  | .connect c => { st with connected := sadd st.connected c }
  | .join c r n t => (handleJoin st c r n t).1
  | .admitUser c u r => (handleAdmit st c u r).1
  | .reject c u r => (handleReject st c u r).1
  | .leave c r => (handleLeave st c r).1
  | .disconnect c t => (handleDisconnect (disconnectTransport st c) c t).1
  | .fire r => fireCleanup st r

/-- Whether a session occurs in any room's cached member set. -/
def memberSomewhere (st : GW) (s : String) : Bool :=
  st.roomParticipants.any (fun e => decide (s ∈ e.2))

/-- States reachable from the empty state by operations that respect the
admission discipline: a `join-room` is only issued by a session that is
in no member set, and an `admit-user` only names a user that is in no
member set. -/
inductive ReachableDisciplined : GW → Prop where
  | init : ReachableDisciplined st0
  | step (st : GW) (op : Op) (h : ReachableDisciplined st)
      (hg : ∀ c r, opAdds op = some (c, r) → memberSomewhere st c = false) :
      ReachableDisciplined (applyOp st op)

/-- State with host `A` and member `B` in room `R` (host plus one more
member), both with presence entries. -/
def stHost : GW :=
  { st0 with
      userInfo := [(sA, ⟨rR, nAlice, 0⟩), (sB, ⟨rR, nBob, 1⟩)],
      roomHosts := [(rR, sA)],
      roomParticipants := [(rR, [sA, sB])],
      adapterRooms := [(rR, [sA, sB])],
      connected := [sA, sB] }

/-- State whose room `R` has member `B` but no recorded host (the
defensive fallback configuration of C8). -/
def stNoHost : GW :=
  { st0 with
      userInfo := [(sB, ⟨rR, nBob, 0⟩)],
      roomParticipants := [(rR, [sB])],
      adapterRooms := [(rR, [sB])],
      connected := [sA, sB] }

/-- State with `A` hosting room `R` while `B` is an admitted member of a
different room `S` (for the C9 cross-room rejection scenario). -/
def stCross : GW :=
  { st0 with
      userInfo := [(sA, ⟨rR, nAlice, 0⟩), (sB, ⟨rS, nBob, 0⟩)],
      roomHosts := [(rR, sA), (rS, sB)],
      roomParticipants := [(rR, [sA]), (rS, [sB])],
      adapterRooms := [(rR, [sA]), (rS, [sB])],
      connected := [sA, sB] }

/-- State where room `R` has member and host `B`, while session `A` has
no presence entry and is not a member (for the C10 scenario). -/
def stStray : GW :=
  { st0 with
      userInfo := [(sB, ⟨rR, nBob, 0⟩)],
      roomHosts := [(rR, sB)],
      roomParticipants := [(rR, [sB])],
      adapterRooms := [(rR, [sB])],
      connected := [sA, sB] }

/-- State with one armed cleanup timer for room `R`. -/
def stTimer : GW := { st0 with cleanupTimers := [(rR, 0)], nextTimer := 1 }

/-! ## Theorems -/

theorem mget_mdel {α : Type} (m : List (String × α)) (k k' : String) :
    mget (mdel m k) k' = if k = k' then none else mget m k' := by
  induction m with
  | nil => simp [mget, mdel]
  | cons e rest ih =>
    obtain ⟨a, v⟩ := e
    show mget (if a = k then mdel rest k else (a, v) :: mdel rest k) k' = _
    by_cases hak : a = k
    · rw [if_pos hak, ih]
      by_cases hkk : k = k'
      · simp [hkk]
      · have hak' : ¬a = k' := fun h => hkk (hak ▸ h)
        simp [mget, hkk, hak']
    · rw [if_neg hak]
      by_cases hak' : a = k'
      · have hkk : ¬k = k' := fun h => hak (h ▸ hak')
        simp [mget, hak', hkk]
      · simp [mget, hak', ih]

theorem mget_mset {α : Type} (m : List (String × α)) (k k' : String) (v : α) :
    mget (mset m k v) k' = if k = k' then some v else mget m k' := by
  by_cases h : k = k' <;> simp [mset, mget, h, mget_mdel]

theorem mget_mem {α : Type} (m : List (String × α)) (k : String) (v : α)
    (h : mget m k = some v) : (k, v) ∈ m := by
  induction m with
  | nil => simp [mget] at h
  | cons e rest ih =>
    obtain ⟨a, w⟩ := e
    by_cases hak : a = k
    · subst hak
      have h' : w = v := by simpa [mget] using h
      subst h'
      exact List.mem_cons_self _ _
    · simp only [mget, if_neg hak] at h
      exact List.mem_cons_of_mem _ (ih h)

theorem mem_sadd (l : List String) (x c : String) :
    x ∈ sadd l c ↔ x ∈ l ∨ x = c := by
  by_cases h : c ∈ l
  · simp only [sadd, if_pos h]
    constructor
    · exact Or.inl
    · rintro (hx | rfl)
      · exact hx
      · exact h
  · simp [sadd, h]

theorem sdel_eq_filter (l : List String) (c : String) :
    sdel l c = l.filter (fun y => decide (y ≠ c)) := by
  induction l with
  | nil => rfl
  | cons y rest ih =>
    by_cases hy : y = c <;> simp [sdel, List.filter_cons, hy, ih]

theorem mem_sdel (l : List String) (x c : String) :
    x ∈ sdel l c ↔ x ∈ l ∧ x ≠ c := by
  simp [sdel_eq_filter, List.mem_filter]

theorem sdel_of_not_mem (l : List String) (c : String) (h : c ∉ l) :
    sdel l c = l := by
  rw [sdel_eq_filter]
  apply List.filter_eq_self.mpr
  intro y hy
  simp only [decide_eq_true_eq]
  exact fun he => h (he ▸ hy)

/-! Component lemmas: which state fields each step leaves untouched,
and how each step transforms the participant cache. -/

theorem clientJoin_roomParticipants (st : GW) (c r : String) :
    (clientJoin st c r).roomParticipants = st.roomParticipants := rfl

theorem clientJoin_roomHosts (st : GW) (c r : String) :
    (clientJoin st c r).roomHosts = st.roomHosts := rfl

theorem clientLeave_roomParticipants (st : GW) (c r : String) :
    (clientLeave st c r).roomParticipants = st.roomParticipants := rfl

theorem clientLeave_roomHosts (st : GW) (c r : String) :
    (clientLeave st c r).roomHosts = st.roomHosts := rfl

theorem clientLeave_userInfo (st : GW) (c r : String) :
    (clientLeave st c r).userInfo = st.userInfo := rfl

theorem clientLeave_cleanupTimers (st : GW) (c r : String) :
    (clientLeave st c r).cleanupTimers = st.cleanupTimers := rfl

theorem clientLeave_nextTimer (st : GW) (c r : String) :
    (clientLeave st c r).nextTimer = st.nextTimer := rfl

theorem removeParticipant_roomHosts (st : GW) (c r : String) :
    (removeParticipant st c r).roomHosts = st.roomHosts := by
  unfold removeParticipant
  split <;> first | rfl | (split <;> rfl)

theorem removeParticipant_userInfo (st : GW) (c r : String) :
    (removeParticipant st c r).userInfo = st.userInfo := by
  unfold removeParticipant
  split <;> first | rfl | (split <;> rfl)

theorem removeParticipant_adapterRooms (st : GW) (c r : String) :
    (removeParticipant st c r).adapterRooms = st.adapterRooms := by
  unfold removeParticipant
  split <;> first | rfl | (split <;> rfl)

theorem removeParticipant_cleanupTimers (st : GW) (c r : String) :
    (removeParticipant st c r).cleanupTimers = st.cleanupTimers := by
  unfold removeParticipant
  split <;> first | rfl | (split <;> rfl)

theorem removeParticipant_nextTimer (st : GW) (c r : String) :
    (removeParticipant st c r).nextTimer = st.nextTimer := by
  unfold removeParticipant
  split <;> first | rfl | (split <;> rfl)

theorem removeParticipant_membersOf (st : GW) (c r r' : String) :
    membersOf (removeParticipant st c r) r' =
      if r = r' then sdel (membersOf st r) c else membersOf st r' := by
  unfold removeParticipant
  cases hm : mget st.roomParticipants r with
  | none =>
    by_cases hr : r = r'
    · subst hr
      simp [membersOf, hm, sdel]
    · simp [hr]
  | some ps =>
    by_cases hz : (sdel ps c).length = 0
    · have hnil : sdel ps c = [] := List.length_eq_zero.mp hz
      by_cases hr : r = r'
      · subst hr
        simp [membersOf, hz, mget_mdel, hm, hnil]
      · simp [membersOf, hz, mget_mdel, hr]
    · by_cases hr : r = r'
      · subst hr
        simp [membersOf, hz, mget_mset, hm]
      · simp [membersOf, hz, mget_mset, hr]

theorem reassignHost_roomParticipants (st : GW) (c r : String) (rem : Option (List String)) :
    (reassignHost st c r rem).1.roomParticipants = st.roomParticipants := by
  unfold reassignHost
  split <;> first | rfl | (split <;> rfl)

theorem reassignHost_userInfo (st : GW) (c r : String) (rem : Option (List String)) :
    (reassignHost st c r rem).1.userInfo = st.userInfo := by
  unfold reassignHost
  split <;> first | rfl | (split <;> rfl)

theorem reassignHost_cleanupTimers (st : GW) (c r : String) (rem : Option (List String)) :
    (reassignHost st c r rem).1.cleanupTimers = st.cleanupTimers := by
  unfold reassignHost
  split <;> first | rfl | (split <;> rfl)

theorem reassignHost_nextTimer (st : GW) (c r : String) (rem : Option (List String)) :
    (reassignHost st c r rem).1.nextTimer = st.nextTimer := by
  unfold reassignHost
  split <;> first | rfl | (split <;> rfl)

theorem reassignHost_not_host (st : GW) (c r : String) (rem : Option (List String))
    (h : mget st.roomHosts r ≠ some c) :
    reassignHost st c r rem = (st, []) := by
  simp [reassignHost, h]

theorem handleUserLeave_fst_roomParticipants (st : GW) (c r : String) :
    (handleUserLeave st c r).1.roomParticipants = (removeParticipant st c r).roomParticipants := by
  unfold handleUserLeave
  simp only [scheduleRoomCleanup, reassignHost_roomParticipants, clientLeave_roomParticipants]

/-- Membership after `handleUserLeave`: the departing client is removed
from the given room's cached set and no other room's set changes. -/
theorem handleUserLeave_membersOf (st : GW) (c r r' : String) :
    membersOf (handleUserLeave st c r).1 r' =
      if r = r' then sdel (membersOf st r) c else membersOf st r' := by
  have h1 : membersOf (handleUserLeave st c r).1 r' =
      membersOf (removeParticipant st c r) r' := by
    unfold membersOf
    rw [handleUserLeave_fst_roomParticipants]
  rw [h1, removeParticipant_membersOf]

theorem handleUserLeave_fst_cleanupTimers (st : GW) (c r : String) :
    (handleUserLeave st c r).1.cleanupTimers = mset st.cleanupTimers r st.nextTimer := by
  unfold handleUserLeave
  simp only [scheduleRoomCleanup, reassignHost_cleanupTimers, reassignHost_nextTimer,
    clientLeave_cleanupTimers, clientLeave_nextTimer,
    removeParticipant_cleanupTimers, removeParticipant_nextTimer]

/-- C1 fails on the code: after `join-room R` followed by `join-room R2`
from the same session (an interleaving of the listed operations), the
session is in the member sets of the two distinct rooms at once. -/
theorem C1_two_rooms_counterexample :
    rR ≠ rR2 ∧ sA ∈ membersOf doubleJoinState rR ∧ sA ∈ membersOf doubleJoinState rR2 :=
  ⟨by decide, by decide, by decide⟩

set_option maxRecDepth 4000 in
/-- C2 fails as stated: with 51 connection attempts from origin `ip` all
at the same instant (hence within one trailing 60-second window), the
51st attempt is still allowed — the limiter only denies when the
recorded count exceeds 50, so the first denial is the 52nd attempt. -/
theorem C2_fifty_first_allowed_counterexample :
    (runConnections st0 ipA (List.replicate 51 0)).2.getLast? = some true := by decide

/-- C3: in the A-joins, B-requests, A-admits round trip: A becomes member
and host of R; B is not added by its request and B gets
`waiting-for-approval` while A gets `join-request{B, Bob}`; after the
admit B is a member, B receives exactly one `existing-users` batch
containing exactly `(A, Alice)` followed by `join-approved`, and the
`user-joined{B, Bob}` notification goes to A and not to B. -/
theorem C3_round_trip :
    membersOf c3a.1 rR = [sA] ∧
    mget c3a.1.roomHosts rR = some sA ∧
    membersOf c3b.1 rR = [sA] ∧
    c3b.2 = [(sB, Msg.waitingForApproval), (sA, Msg.joinRequest sB nBob)] ∧
    membersOf c3c.1 rR = [sA, sB] ∧
    c3c.2 = [(sB, Msg.existingUsers [(sA, nAlice)]),
             (sA, Msg.userJoined sB nBob),
             (sB, Msg.joinApproved)] := by
  decide

/-! Decomposition of `handleUserLeave` and facts about `joinRoom`. -/

theorem handleUserLeave_eq (st : GW) (c r : String) :
    handleUserLeave st c r =
      (scheduleRoomCleanup
          (reassignHost (stAfterLeave st c r) c r
            ((mget st.roomParticipants r).map (fun ps => sdel ps c))).1 r,
        leftNotices st c r ++
          (reassignHost (stAfterLeave st c r) c r
            ((mget st.roomParticipants r).map (fun ps => sdel ps c))).2) := rfl

theorem stAfterLeave_roomHosts (st : GW) (c r : String) :
    (stAfterLeave st c r).roomHosts = st.roomHosts := by
  unfold stAfterLeave
  simp only [clientLeave_roomHosts, removeParticipant_roomHosts]

theorem stAfterLeave_roomParticipants (st : GW) (c r : String) :
    (stAfterLeave st c r).roomParticipants = (removeParticipant st c r).roomParticipants := by
  unfold stAfterLeave
  simp only [clientLeave_roomParticipants]

theorem stAfterLeave_nextTimer (st : GW) (c r : String) :
    (stAfterLeave st c r).nextTimer = st.nextTimer := by
  unfold stAfterLeave
  simp only [clientLeave_nextTimer, removeParticipant_nextTimer]

theorem filter_ne_sdel (l : List String) (c : String) :
    (sdel l c).filter (fun t => decide (t ≠ c)) = sdel l c := by
  apply List.filter_eq_self.mpr
  intro y hy
  simp only [decide_eq_true_eq]
  exact ((mem_sdel l y c).mp hy).2

theorem leftNotices_eq (st : GW) (c r : String) :
    leftNotices st c r = (sdel (adapterOf st r) c).map
      (fun t => (t, Msg.userLeft c ((mget st.userInfo c).map UserInfo.userName))) := by
  unfold leftNotices
  have h1 : adapterOf (clientLeave (removeParticipant st c r) c r) r =
      sdel (adapterOf st r) c := by
    simp [adapterOf, clientLeave, mget_mset, removeParticipant_adapterRooms]
  rw [h1, filter_ne_sdel]

theorem joinRoom_membersOf (st : GW) (c r un r' : String) :
    membersOf (joinRoom st c r un).1 r' =
      if r = r' then sadd (membersOf st r) c else membersOf st r' := by
  unfold joinRoom
  simp only [membersOf, clientJoin_roomParticipants, mget_mset]
  by_cases h : r = r' <;> simp [h]

theorem joinRoom_fst_roomHosts (st : GW) (c r un : String) :
    (joinRoom st c r un).1.roomHosts = st.roomHosts := rfl

theorem joinRoom_fst_userInfo (st : GW) (c r un : String) :
    (joinRoom st c r un).1.userInfo = st.userInfo := rfl

theorem joinRoom_fst_cleanupTimers (st : GW) (c r un : String) :
    (joinRoom st c r un).1.cleanupTimers = st.cleanupTimers := rfl

/-- C4: an `admit-user` or `reject-user` issued by a session other than
the room's recorded host leaves the whole state (presence table, member
sets, host map) unchanged and emits no notification. -/
theorem C4_unauthorized_admit_reject (st : GW) (c u R h : String)
    (hh : mget st.roomHosts R = some h) (hne : c ≠ h) :
    handleAdmit st c u R = (st, []) ∧ handleReject st c u R = (st, []) := by
  have hcond : ¬mget st.roomHosts R = some c := by
    rw [hh]
    intro he
    exact hne (Option.some.inj he).symm
  exact ⟨by simp [handleAdmit, hcond], by simp [handleReject, hcond]⟩

/-- Witness for C4: non-host `B` tries to admit and reject in `R`,
whose recorded host is `A`; nothing happens. -/
theorem C4_unauthorized_admit_reject_witness :
    handleAdmit stHost sB sB rR = (stHost, []) ∧ handleReject stHost sB sB rR = (stHost, []) :=
  C4_unauthorized_admit_reject stHost sB sB rR sA (by decide) (by decide)

/-- C5: a second `join-room` for the same room from a session that
already has a presence entry for that room is a complete no-op: the
state (hence the single presence entry and its `joinedAt`) is unchanged
and nothing is emitted. -/
theorem C5_duplicate_join_noop (st : GW) (s R un : String) (now : Nat) (ui : UserInfo)
    (hui : mget st.userInfo s = some ui) (hr : ui.roomId = R) :
    handleJoin st s R un now = (st, []) := by
  simp [handleJoin, hui, hr]

/-- Witness for C5: `A` re-joins room `R` right after joining it. -/
theorem C5_duplicate_join_noop_witness :
    handleJoin c3a.1 sA rR nBob 7 = (c3a.1, []) :=
  C5_duplicate_join_noop c3a.1 sA rR nBob 7 ⟨rR, nAlice, 0⟩ (by decide) (by decide)

/-- C9: a `reject-user` from the recorded host of `R` naming any
connected session `u` deletes `u`'s presence entry and sends it
`join-rejected`, with no check that `u` is a pending applicant of `R`:
member sets of every room (in particular `u`'s own room) are untouched
while `u`'s presence entry is gone. -/
theorem C9_reject_any_connected (st : GW) (h u R : String)
    (hh : mget st.roomHosts R = some h) (hc : u ∈ st.connected) :
    handleReject st h u R =
      ({ st with userInfo := mdel st.userInfo u }, [(u, Msg.joinRejected)]) ∧
    (∀ S, membersOf ({ st with userInfo := mdel st.userInfo u } : GW) S = membersOf st S) ∧
    mget (mdel st.userInfo u) u = none := by
  refine ⟨?_, fun S => rfl, ?_⟩
  · simp [handleReject, hh, hc]
  · rw [mget_mdel]
    simp

/-- Witness for C9: the host of `R` rejects `B`, an admitted member of
the different room `S`: `B` keeps its membership in `S` but loses its
presence entry. -/
theorem C9_reject_any_connected_witness :
    handleReject stCross sA sB rR =
      ({ stCross with userInfo := mdel stCross.userInfo sB }, [(sB, Msg.joinRejected)]) ∧
    membersOf (handleReject stCross sA sB rR).1 rS = [sB] ∧
    mget (handleReject stCross sA sB rR).1.userInfo sB = none := by
  have hth := C9_reject_any_connected stCross sA sB rR (by decide) (by decide)
  exact ⟨hth.1, by decide, by decide⟩

/-- C6: when the recorded host of `R` departs, the member set becomes the
prior set minus the host; if members remain, the new recorded host is
the first remaining member (hence a current member) and it is sent
`host-assigned{R}`; if none remain, the host pointer is cleared. -/
theorem C6_host_departure (st : GW) (R h : String)
    (hh : mget st.roomHosts R = some h) :
    membersOf (handleUserLeave st h R).1 R = sdel (membersOf st R) h ∧
    (∀ nh rest, sdel (membersOf st R) h = nh :: rest →
      mget (handleUserLeave st h R).1.roomHosts R = some nh ∧
      nh ∈ sdel (membersOf st R) h ∧
      (nh, Msg.hostAssigned R) ∈ (handleUserLeave st h R).2) ∧
    (sdel (membersOf st R) h = [] →
      mget (handleUserLeave st h R).1.roomHosts R = none) := by
  refine ⟨?_, ?_, ?_⟩
  · rw [handleUserLeave_membersOf]
    simp
  · intro nh rest hcons
    cases hm : mget st.roomParticipants R with
    | none =>
      exfalso
      have hnil : membersOf st R = [] := by simp [membersOf, hm]
      rw [hnil] at hcons
      simp [sdel] at hcons
    | some ps =>
      have hmem : membersOf st R = ps := by simp [membersOf, hm]
      have hrem : (mget st.roomParticipants R).map (fun l => sdel l h) = some (nh :: rest) := by
        rw [hm]
        simp only [Option.map_some']
        rw [← hmem, hcons]
      have hra : reassignHost (stAfterLeave st h R) h R
          ((mget st.roomParticipants R).map (fun l => sdel l h)) =
          ({ stAfterLeave st h R with roomHosts := mset st.roomHosts R nh },
            [(nh, Msg.hostAssigned R)]) := by
        rw [hrem]
        unfold reassignHost
        rw [stAfterLeave_roomHosts, hh]
        simp
      refine ⟨?_, ?_, ?_⟩
      · rw [handleUserLeave_eq]
        rw [hra]
        simp [scheduleRoomCleanup, mget_mset]
      · rw [hcons]
        exact List.mem_cons_self _ _
      · rw [handleUserLeave_eq]
        rw [hra]
        exact List.mem_append_right _ (List.mem_singleton.mpr rfl)
  · intro hnil
    cases hm : mget st.roomParticipants R with
    | none =>
      have hra : reassignHost (stAfterLeave st h R) h R
          ((mget st.roomParticipants R).map (fun l => sdel l h)) =
          ({ stAfterLeave st h R with roomHosts := mdel st.roomHosts R }, []) := by
        rw [hm]
        unfold reassignHost
        rw [stAfterLeave_roomHosts, hh]
        simp
      rw [handleUserLeave_eq, hra]
      simp [scheduleRoomCleanup, mget_mdel]
    | some ps =>
      have hmem : membersOf st R = ps := by simp [membersOf, hm]
      have hrem : (mget st.roomParticipants R).map (fun l => sdel l h) = some [] := by
        rw [hm]
        simp only [Option.map_some']
        rw [← hmem, hnil]
      have hra : reassignHost (stAfterLeave st h R) h R
          ((mget st.roomParticipants R).map (fun l => sdel l h)) =
          ({ stAfterLeave st h R with roomHosts := mdel st.roomHosts R }, []) := by
        rw [hrem]
        unfold reassignHost
        rw [stAfterLeave_roomHosts, hh]
        simp
      rw [handleUserLeave_eq, hra]
      simp [scheduleRoomCleanup, mget_mdel]

/-- Witness for C6: host `A` leaves `R` while `B` remains: member set
becomes `[B]`, `B` becomes recorded host and receives `host-assigned`. -/
theorem C6_host_departure_witness :
    membersOf (handleUserLeave stHost sA rR).1 rR = [sB] ∧
    mget (handleUserLeave stHost sA rR).1.roomHosts rR = some sB ∧
    (sB, Msg.hostAssigned rR) ∈ (handleUserLeave stHost sA rR).2 := by
  have hth := C6_host_departure stHost rR sA (by decide)
  have h2 := hth.2.1 sB [] (by decide)
  refine ⟨?_, h2.1, h2.2.2⟩
  rw [hth.1]
  decide

/-- Any `admit-user` for a room with no recorded host is dropped. -/
theorem handleAdmit_no_host (st : GW) (R c u : String)
    (hh : mget st.roomHosts R = none) :
    handleAdmit st c u R = (st, []) := by
  simp [handleAdmit, hh]

/-- C7: the cleanup scheduler is a pure debounce — re-arming replaces the
armed timer handle for the room by the fresh one, so the prior handle is
no longer armed; a firing timer deletes the room record exactly when the
member set is empty at firing time; and a join to the still-registered
empty room before firing elects the joiner host, and the subsequent
firing deletes nothing. -/
theorem C7_cleanup_debounce :
    (∀ st R g, mget st.cleanupTimers R = some g → g < st.nextTimer →
      mget (scheduleRoomCleanup st R).cleanupTimers R = some st.nextTimer ∧
      mget (scheduleRoomCleanup st R).cleanupTimers R ≠ some g) ∧
    (∀ st R, (membersOf st R = [] →
        mget (fireCleanup st R).roomParticipants R = none ∧
        mget (fireCleanup st R).roomHosts R = none) ∧
      (membersOf st R ≠ [] → fireCleanup st R = st)) ∧
    (∀ st c R un t, membersOf st R = [] → mget st.userInfo c = none →
      mget (handleJoin st c R un t).1.roomHosts R = some c ∧
      fireCleanup (handleJoin st c R un t).1 R = (handleJoin st c R un t).1) := by
  refine ⟨?_, ?_, ?_⟩
  · intro st R g hg hlt
    constructor
    · simp [scheduleRoomCleanup, mget_mset]
    · simp only [scheduleRoomCleanup, mget_mset, if_pos rfl]
      intro he
      exact Nat.lt_irrefl g (Option.some.inj he ▸ hlt)
  · intro st R
    constructor
    · intro hemp
      have hz : (membersOf st R).length = 0 := by rw [hemp]; rfl
      unfold fireCleanup
      rw [if_pos hz]
      constructor <;> simp [mget_mdel]
    · intro hne
      have hz : ¬(membersOf st R).length = 0 := fun hl => hne (List.length_eq_zero.mp hl)
      unfold fireCleanup
      rw [if_neg hz]
  · intro st c R un t hemp hc
    have h1 : handleJoin st c R un t = handleJoinFresh st c R un t := by
      simp [handleJoin, hc]
    have hz : (membersOf ({ st with userInfo := mset st.userInfo c ⟨R, un, t⟩ } : GW) R).length
        = 0 := by
      show (membersOf st R).length = 0
      rw [hemp]
      rfl
    have h2 : handleJoinFresh st c R un t =
        joinRoom { st with userInfo := mset st.userInfo c ⟨R, un, t⟩,
                           roomHosts := mset st.roomHosts R c } c R un := by
      unfold handleJoinFresh
      rw [if_pos hz]
    have hhost : mget (handleJoin st c R un t).1.roomHosts R = some c := by
      rw [h1, h2, joinRoom_fst_roomHosts]
      show mget (mset st.roomHosts R c) R = some c
      simp [mget_mset]
    refine ⟨hhost, ?_⟩
    have hmem : membersOf (handleJoin st c R un t).1 R = sadd (membersOf st R) c := by
      rw [h1, h2, joinRoom_membersOf, if_pos rfl]
      rfl
    have hne : membersOf (handleJoin st c R un t).1 R ≠ [] := by
      rw [hmem, hemp]
      simp [sadd]
    have hz2 : ¬(membersOf (handleJoin st c R un t).1 R).length = 0 :=
      fun hl => hne (List.length_eq_zero.mp hl)
    unfold fireCleanup
    rw [if_neg hz2]

/-- Witness for C7: re-arming the timer of room `R` replaces handle 0 by
handle 1; firing on the empty registry deletes the record while firing on
an occupied room changes nothing; a join to empty `R` elects the joiner
host and survives the subsequent firing. -/
theorem C7_cleanup_debounce_witness :
    (mget (scheduleRoomCleanup stTimer rR).cleanupTimers rR = some stTimer.nextTimer ∧
      mget (scheduleRoomCleanup stTimer rR).cleanupTimers rR ≠ some 0) ∧
    (mget (fireCleanup stTimer rR).roomParticipants rR = none ∧
      mget (fireCleanup stTimer rR).roomHosts rR = none) ∧
    fireCleanup stHost rR = stHost ∧
    (mget (handleJoin st0 sA rR nAlice 0).1.roomHosts rR = some sA ∧
      fireCleanup (handleJoin st0 sA rR nAlice 0).1 rR = (handleJoin st0 sA rR nAlice 0).1) :=
  ⟨C7_cleanup_debounce.1 stTimer rR 0 (by decide) (by decide),
    (C7_cleanup_debounce.2.1 stTimer rR).1 (by decide),
    (C7_cleanup_debounce.2.1 stHost rR).2 (by decide),
    C7_cleanup_debounce.2.2 st0 sA rR nAlice 0 (by decide) (by decide)⟩

/-- C8: in a state where room `R` has members but no recorded host, a
newcomer's join request is routed to the first current member, yet every
`admit-user` for `R` — from any session, including that member — is
dropped as unauthorized with no state change, so no applicant can be
admitted while `R` has no recorded host. -/
theorem C8_no_host_blocks_admission (st : GW) (R c un : String) (t : Nat) (m : String)
    (rest : List String) (hm : membersOf st R = m :: rest)
    (hh : mget st.roomHosts R = none) (hc : mget st.userInfo c = none) :
    (handleJoin st c R un t).2 =
      [(c, Msg.waitingForApproval), (m, Msg.joinRequest c un)] ∧
    ∀ c' u', handleAdmit (handleJoin st c R un t).1 c' u' R =
      ((handleJoin st c R un t).1, []) := by
  have h1 : handleJoin st c R un t = handleJoinFresh st c R un t := by
    simp [handleJoin, hc]
  have hm1 : membersOf ({ st with userInfo := mset st.userInfo c ⟨R, un, t⟩ } : GW) R
      = m :: rest := hm
  have hh1 : mget ({ st with userInfo := mset st.userInfo c ⟨R, un, t⟩ } : GW).roomHosts R
      = none := hh
  have hz : ¬(membersOf ({ st with userInfo := mset st.userInfo c ⟨R, un, t⟩ } : GW) R).length
      = 0 := by
    rw [hm1]
    simp
  have h2 : handleJoinFresh st c R un t =
      ({ st with userInfo := mset st.userInfo c ⟨R, un, t⟩ },
        [(c, Msg.waitingForApproval), (m, Msg.joinRequest c un)]) := by
    unfold handleJoinFresh
    rw [if_neg hz, hh1, hm1]
    rfl
  constructor
  · rw [h1, h2]
  · intro c' u'
    apply handleAdmit_no_host
    rw [h1, h2]
    exact hh1

/-- Witness for C8: `A` asks to join hostless room `R` whose only member
is `B`; `B` receives the join-request, and `B`'s own attempt to admit `A`
is dropped. -/
theorem C8_no_host_blocks_admission_witness :
    (handleJoin stNoHost sA rR nAlice 1).2 =
      [(sA, Msg.waitingForApproval), (sB, Msg.joinRequest sA nAlice)] ∧
    handleAdmit (handleJoin stNoHost sA rR nAlice 1).1 sB sA rR =
      ((handleJoin stNoHost sA rR nAlice 1).1, []) := by
  have hth := C8_no_host_blocks_admission stNoHost rR sA nAlice 1 sB []
    (by decide) (by decide) (by decide)
  exact ⟨hth.1, hth.2 sB sA⟩

/-- C10: a `leave-room(R)` from a session with no presence entry that is
not a member of `R` is processed without any validation: the `user-left`
broadcast with an undefined userName still goes to all of `R`'s members,
no membership is deleted anywhere, and the cleanup scheduler is armed
for `R`. -/
theorem C10_leave_without_presence (st : GW) (s R : String)
    (hui : mget st.userInfo s = none)
    (hmem : s ∉ membersOf st R)
    (hsync : mget st.adapterRooms R = mget st.roomParticipants R)
    (hhost : mget st.roomHosts R ≠ some s) :
    (handleLeave st s R).2 = (membersOf st R).map (fun t => (t, Msg.userLeft s none)) ∧
    (∀ S, membersOf (handleLeave st s R).1 S = membersOf st S) ∧
    mget (handleLeave st s R).1.cleanupTimers R = some st.nextTimer := by
  have hadL : adapterOf st R = membersOf st R := by
    unfold adapterOf membersOf
    rw [hsync]
  have hra : reassignHost (stAfterLeave st s R) s R
      ((mget st.roomParticipants R).map (fun ps => sdel ps s)) = (stAfterLeave st s R, []) := by
    apply reassignHost_not_host
    rw [stAfterLeave_roomHosts]
    exact hhost
  refine ⟨?_, ?_, ?_⟩
  · show (handleUserLeave st s R).2 = _
    rw [handleUserLeave_eq]
    simp only [hra, List.append_nil]
    rw [leftNotices_eq, hadL, sdel_of_not_mem _ _ hmem, hui]
    simp
  · intro S
    show membersOf (handleUserLeave st s R).1 S = _
    rw [handleUserLeave_membersOf]
    by_cases h : R = S
    · subst h
      rw [if_pos rfl, sdel_of_not_mem _ _ hmem]
    · rw [if_neg h]
  · show mget (handleUserLeave st s R).1.cleanupTimers R = _
    rw [handleUserLeave_fst_cleanupTimers]
    simp [mget_mset]

/-- Witness for C10: session `A`, with no presence and no membership,
issues `leave-room(R)`: member `B` still gets `user-left{A, none}`, the
member set of `R` stays `[B]`, and a cleanup timer is armed for `R`. -/
theorem C10_leave_without_presence_witness :
    (handleLeave stStray sA rR).2 = [(sB, Msg.userLeft sA none)] ∧
    membersOf (handleLeave stStray sA rR).1 rR = [sB] ∧
    mget (handleLeave stStray sA rR).1.cleanupTimers rR = some stStray.nextTimer := by
  have hth := C10_leave_without_presence stStray sA rR
    (by decide) (by decide) (by decide) (by decide)
  refine ⟨?_, ?_, hth.2.2⟩
  · rw [hth.1]
    decide
  · rw [hth.2.1 rR]
    decide

/-! Membership lemmas for each operation, towards the amended C1
invariant. -/

theorem handleJoinFresh_membersOf_ne (st : GW) (c r un : String) (t : Nat) (r' : String)
    (hne : r ≠ r') :
    membersOf (handleJoinFresh st c r un t).1 r' = membersOf st r' := by
  unfold handleJoinFresh
  dsimp only
  split
  · rw [joinRoom_membersOf, if_neg hne]
    rfl
  · split
    · rfl
    · rw [joinRoom_membersOf, if_neg hne]
      rfl

theorem handleJoin_membersOf_ne (st : GW) (c r un : String) (t : Nat) (r' : String)
    (hne : r ≠ r') :
    membersOf (handleJoin st c r un t).1 r' = membersOf st r' := by
  unfold handleJoin
  split
  · split
    · rfl
    · exact handleJoinFresh_membersOf_ne st c r un t r' hne
  · exact handleJoinFresh_membersOf_ne st c r un t r' hne

theorem handleJoinFresh_membersOf_self (st : GW) (c r un : String) (t : Nat) :
    membersOf (handleJoinFresh st c r un t).1 r = membersOf st r ∨
    membersOf (handleJoinFresh st c r un t).1 r = sadd (membersOf st r) c := by
  unfold handleJoinFresh
  dsimp only
  split
  · right
    rw [joinRoom_membersOf, if_pos rfl]
    rfl
  · split
    · left
      rfl
    · right
      rw [joinRoom_membersOf, if_pos rfl]
      rfl

theorem handleJoin_membersOf_self (st : GW) (c r un : String) (t : Nat) :
    membersOf (handleJoin st c r un t).1 r = membersOf st r ∨
    membersOf (handleJoin st c r un t).1 r = sadd (membersOf st r) c := by
  unfold handleJoin
  split
  · split
    · left
      rfl
    · exact handleJoinFresh_membersOf_self st c r un t
  · exact handleJoinFresh_membersOf_self st c r un t

theorem handleAdmit_membersOf_ne (st : GW) (c u r r' : String) (hne : r ≠ r') :
    membersOf (handleAdmit st c u r).1 r' = membersOf st r' := by
  unfold handleAdmit
  split
  · split
    · split
      · dsimp only
        rw [joinRoom_membersOf, if_neg hne]
      · rfl
    · rfl
  · rfl

theorem handleAdmit_membersOf_self (st : GW) (c u r : String) :
    membersOf (handleAdmit st c u r).1 r = membersOf st r ∨
    membersOf (handleAdmit st c u r).1 r = sadd (membersOf st r) u := by
  unfold handleAdmit
  split
  · split
    · split
      · right
        dsimp only
        rw [joinRoom_membersOf, if_pos rfl]
      · left
        rfl
    · left
      rfl
  · left
    rfl

theorem handleReject_membersOf (st : GW) (c u r r' : String) :
    membersOf (handleReject st c u r).1 r' = membersOf st r' := by
  unfold handleReject
  split
  · split <;> rfl
  · rfl

theorem fireCleanup_membersOf (st : GW) (r r' : String) :
    membersOf (fireCleanup st r) r' = membersOf st r' ∨
    membersOf (fireCleanup st r) r' = [] := by
  unfold fireCleanup
  split
  · by_cases h : r = r'
    · subst h
      right
      simp [membersOf, mget_mdel]
    · left
      simp [membersOf, mget_mdel, h]
  · left
    rfl

theorem cleanupConnectionTracking_membersOf (st : GW) (t : Nat) (r' : String) :
    membersOf (cleanupConnectionTracking st t) r' = membersOf st r' := rfl

theorem handleDisconnect_membersOf (st : GW) (c : String) (t : Nat) (r' : String) :
    membersOf (handleDisconnect st c t).1 r' = membersOf st r' ∨
    membersOf (handleDisconnect st c t).1 r' = sdel (membersOf st r') c := by
  unfold handleDisconnect
  split
  · rename_i u hu
    dsimp only
    rw [cleanupConnectionTracking_membersOf, handleUserLeave_membersOf]
    by_cases h : u.roomId = r'
    · right
      rw [if_pos h, h]
    · left
      rw [if_neg h]
  · left
    rfl

theorem not_member_of_memberSomewhere_false (st : GW) (x : String)
    (h : memberSomewhere st x = false) (r : String) : x ∉ membersOf st r := by
  intro hx
  unfold membersOf at hx
  cases hm : mget st.roomParticipants r with
  | none =>
    rw [hm] at hx
    simp at hx
  | some ps =>
    rw [hm] at hx
    simp only [Option.getD_some] at hx
    have hmem := mget_mem _ _ _ hm
    unfold memberSomewhere at h
    rw [List.any_eq_false] at h
    have hfalse := h _ hmem
    simp only [decide_eq_true_eq] at hfalse
    exact hfalse hx

/-- Any operation can add at most the session named by `opAdds` to a
member set; every other membership already existed. -/
theorem applyOp_member_inversion (st : GW) (op : Op) (s r' : String)
    (hs : s ∈ membersOf (applyOp st op) r') :
    s ∈ membersOf st r' ∨ opAdds op = some (s, r') := by
  cases op with
  | connect c =>
    left
    exact hs
  | join c r un t =>
    rw [show applyOp st (Op.join c r un t) = (handleJoin st c r un t).1 from rfl] at hs
    by_cases h : r = r'
    · subst h
      rcases handleJoin_membersOf_self st c r un t with he | he
      · left
        rw [he] at hs
        exact hs
      · rw [he] at hs
        rcases (mem_sadd _ _ _).mp hs with h1 | h1
        · left
          exact h1
        · right
          rw [h1]
          rfl
    · left
      rw [handleJoin_membersOf_ne st c r un t r' h] at hs
      exact hs
  | admitUser c u r =>
    rw [show applyOp st (Op.admitUser c u r) = (handleAdmit st c u r).1 from rfl] at hs
    by_cases h : r = r'
    · subst h
      rcases handleAdmit_membersOf_self st c u r with he | he
      · left
        rw [he] at hs
        exact hs
      · rw [he] at hs
        rcases (mem_sadd _ _ _).mp hs with h1 | h1
        · left
          exact h1
        · right
          rw [h1]
          rfl
    · left
      rw [handleAdmit_membersOf_ne st c u r r' h] at hs
      exact hs
  | reject c u r =>
    left
    rw [show applyOp st (Op.reject c u r) = (handleReject st c u r).1 from rfl,
      handleReject_membersOf] at hs
    exact hs
  | leave c r =>
    left
    rw [show applyOp st (Op.leave c r) = (handleUserLeave st c r).1 from rfl,
      handleUserLeave_membersOf] at hs
    by_cases h : r = r'
    · rw [if_pos h] at hs
      have := ((mem_sdel _ _ _).mp hs).1
      rw [← h]
      exact this
    · rw [if_neg h] at hs
      exact hs
  | disconnect c t =>
    left
    rcases handleDisconnect_membersOf (disconnectTransport st c) c t r' with he | he
    · rw [show applyOp st (Op.disconnect c t) =
          (handleDisconnect (disconnectTransport st c) c t).1 from rfl, he] at hs
      exact hs
    · rw [show applyOp st (Op.disconnect c t) =
          (handleDisconnect (disconnectTransport st c) c t).1 from rfl, he] at hs
      exact ((mem_sdel _ _ _).mp hs).1
  | fire r =>
    left
    rcases fireCleanup_membersOf st r r' with he | he
    · rw [show applyOp st (Op.fire r) = fireCleanup st r from rfl, he] at hs
      exact hs
    · rw [show applyOp st (Op.fire r) = fireCleanup st r from rfl, he] at hs
      exact absurd hs (List.not_mem_nil s)

/-- One disciplined step preserves the at-most-one-room invariant. -/
theorem inv_step (st : GW) (op : Op)
    (hInv : ∀ s r1 r2, s ∈ membersOf st r1 → s ∈ membersOf st r2 → r1 = r2)
    (hg : ∀ c r, opAdds op = some (c, r) → memberSomewhere st c = false) :
    ∀ s r1 r2, s ∈ membersOf (applyOp st op) r1 → s ∈ membersOf (applyOp st op) r2 →
      r1 = r2 := by
  intro s r1 r2 h1 h2
  rcases applyOp_member_inversion st op s r1 h1 with ha | ha <;>
    rcases applyOp_member_inversion st op s r2 h2 with hb | hb
  · exact hInv s r1 r2 ha hb
  · exact absurd ha (not_member_of_memberSomewhere_false st s (hg s r2 hb) r1)
  · exact absurd hb (not_member_of_memberSomewhere_false st s (hg s r1 ha) r2)
  · rw [ha] at hb
    exact congrArg Prod.snd (Option.some.inj hb)

/-- C1 amended: under the admission discipline — every `join-room` comes
from a session in no member set and every `admit-user` names a user in no
member set — a session is in at most one room's member set in every
reachable state.  (Unrestricted, the property fails: see the
counterexample, where one session joins two rooms in succession.) -/
theorem C1_amended_single_room_membership (st : GW) (hst : ReachableDisciplined st) :
    ∀ s r1 r2, s ∈ membersOf st r1 → s ∈ membersOf st r2 → r1 = r2 := by
  induction hst with
  | init =>
    intro s r1 r2 h1 _
    exact absurd h1 (by simp [st0, membersOf, mget])
  | step st op h hg ih =>
    exact inv_step st op ih hg

/-- Witness for the amended C1: the state after a disciplined join of `A`
into `R` is reachable, `A` is a member of `R`, and the theorem applies. -/
theorem C1_amended_single_room_membership_witness :
    sA ∈ membersOf (applyOp st0 (Op.join sA rR nAlice 0)) rR ∧ rR = rR := by
  have hre : ReachableDisciplined (applyOp st0 (Op.join sA rR nAlice 0)) :=
    ReachableDisciplined.step st0 (Op.join sA rR nAlice 0) ReachableDisciplined.init
      (fun c r h => by cases Option.some.inj h; decide)
  have hm : sA ∈ membersOf (applyOp st0 (Op.join sA rR nAlice 0)) rR := by decide
  exact ⟨hm, C1_amended_single_room_membership _ hre sA rR rR hm hm⟩

/-! Rate limiter: the amended C2. -/

theorem filter_recent_of_within (acc : List Nat) (t : Nat)
    (h : ∀ x ∈ acc, t - x < 60000) :
    acc.filter (fun time => decide (t - time < 60000)) = acc := by
  apply List.filter_eq_self.mpr
  intro x hx
  simp only [decide_eq_true_eq]
  exact h x hx

theorem rateResults_all_within (S : List Nat) (hS : ∀ x ∈ S, ∀ y ∈ S, y - x < 60000) :
    ∀ ts acc, (∀ x ∈ ts, x ∈ S) → (∀ x ∈ acc, x ∈ S) →
      rateResults ts acc =
        (List.range ts.length).map (fun i => decide (acc.length + i ≤ 50)) := by
  intro ts
  induction ts with
  | nil =>
    intro acc _ _
    rfl
  | cons t rest ih =>
    intro acc hts hacc
    have htS : t ∈ S := hts t (List.mem_cons_self _ _)
    have hfilter : acc.filter (fun time => decide (t - time < 60000)) = acc :=
      filter_recent_of_within acc t (fun x hx => hS x (hacc x hx) t htS)
    have hrest : ∀ x ∈ rest, x ∈ S := fun x hx => hts x (List.mem_cons_of_mem _ hx)
    unfold rateResults rateStep
    dsimp only
    rw [hfilter]
    by_cases hlen : 50 < acc.length
    · rw [if_pos hlen]
      dsimp only
      rw [ih acc hrest hacc, List.length_cons, List.range_succ_eq_map,
        List.map_cons, List.map_map]
      have h0 : ¬(acc.length + 0 ≤ 50) := by omega
      congr 1
      · simp [h0]
        omega
      · apply List.map_congr_left
        intro i _
        have h1 : ¬(acc.length + i ≤ 50) := by omega
        have h2 : ¬(acc.length + (i + 1) ≤ 50) := by omega
        simp [Function.comp, h1, h2]
    · rw [if_neg hlen]
      dsimp only
      have hacc2 : ∀ x ∈ acc ++ [t], x ∈ S := by
        intro x hx
        rcases List.mem_append.mp hx with h | h
        · exact hacc x h
        · rw [List.mem_singleton.mp h]
          exact htS
      rw [ih (acc ++ [t]) hrest hacc2, List.length_cons, List.range_succ_eq_map,
        List.map_cons, List.map_map]
      have h0 : acc.length + 0 ≤ 50 := by omega
      congr 1
      · simp [h0]
        omega
      · apply List.map_congr_left
        intro i _
        simp only [Function.comp, List.length_append, List.length_singleton]
        congr 1
        simp only [eq_iff_iff]
        omega

theorem runConnections_decisions (ts : List Nat) : ∀ (st : GW) (ip : String),
    (runConnections st ip ts).2 = rateResults ts ((mget st.connectionAttempts ip).getD []) := by
  induction ts with
  | nil =>
    intro st ip
    rfl
  | cons t rest ih =>
    intro st ip
    unfold runConnections rateResults
    dsimp only
    have hdec : (handleConnection st ip t).2 =
        (rateStep ((mget st.connectionAttempts ip).getD []) t).1 := by
      unfold handleConnection rateStep
      dsimp only
      split <;> rfl
    have hstate : (mget (handleConnection st ip t).1.connectionAttempts ip).getD [] =
        (rateStep ((mget st.connectionAttempts ip).getD []) t).2 := by
      unfold handleConnection rateStep
      dsimp only
      split
      · rfl
      · simp [mget_mset]
    rw [hdec, ih, hstate]

/-- C2 amended: for one origin whose attempts all fall within a common
trailing 60-second window (pairwise less than 60 s apart), starting from
no recorded attempts, attempt `i` (0-based) is allowed exactly when
`i ≤ 50`: the first 51 attempts are allowed and the 52nd is the first
denied — the limiter denies exactly when the recorded in-window count
exceeds 50; and an attempt recorded 60 s or more before `now` never
influences the decision. -/
theorem C2_window_rate_limit (ts : List Nat) (st : GW) (ip : String)
    (hemp : mget st.connectionAttempts ip = none)
    (hW : ∀ x ∈ ts, ∀ y ∈ ts, y - x < 60000) :
    (runConnections st ip ts).2 = (List.range ts.length).map (fun i => decide (i ≤ 50)) ∧
    ∀ acc now t0, 60000 ≤ now - t0 →
      (rateStep (t0 :: acc) now).1 = (rateStep acc now).1 := by
  constructor
  · rw [runConnections_decisions, hemp]
    have hmain := rateResults_all_within ts hW ts []
      (fun x hx => hx) (by intro x hx; simp at hx)
    simpa using hmain
  · intro acc now t0 h
    have hold : ¬(now - t0 < 60000) := Nat.not_lt.mpr h
    have hf : (t0 :: acc).filter (fun time => decide (now - time < 60000)) =
        acc.filter (fun time => decide (now - time < 60000)) := by
      simp [List.filter_cons, hold]
    unfold rateStep
    dsimp only
    rw [hf]
    split <;> rfl

/-- Witness for the amended C2: 52 attempts at one instant from one
origin — the decisions are 51 allows followed by one deny — and an
attempt 70000 ms old does not change the decision. -/
theorem C2_window_rate_limit_witness :
    (runConnections st0 ipA (List.replicate 52 0)).2 =
      (List.range (List.replicate 52 (0 : Nat)).length).map (fun i => decide (i ≤ 50)) ∧
    (rateStep [0, 70000] 70000).1 = (rateStep [70000] 70000).1 := by
  have hth := C2_window_rate_limit (List.replicate 52 0) st0 ipA rfl (by decide)
  exact ⟨hth.1, hth.2 [70000] 70000 0 (by decide)⟩

end MeetingApp
